import Mathlib

/-!
Verification development for the node-module-version-checker repository.

The development shallowly embeds the current generation of the code base
(src/extended_version_req.rs, src/package_data.rs, src/dependency_resolver.rs,
src/diff.rs, src/ptree_impl/*) in Lean.  The crate-internal modules
`crate::package` (Package, PackageEntry, Dependency, PackageKey) and
`crate::node_modules` (NodeModules, NEXT_PARENT_ID) are declared and used by
the sources but their defining files are not part of the source tree; those
definitions are modelled from the specification and marked as such.

The external `semver` crate (semver::VersionReq, semver::Version::parse) is an
external collaborator: its range type, range parser, range printer and matcher
are taken as parameters (`S`, `svParse`, `svToString`, `svMatches`); concrete
demo instances are used for witness evaluations only.
-/

namespace Nmvc

/-! ## String helpers

Rust's `str::starts_with`, `str::contains`, byte slicing `s[n..]` and
`str::split` (non-overlapping, left to right) modelled over `List Char`.
-/

/-- Rust `str::starts_with`. -/
def strStartsWith (s pre : String) : Bool :=
  pre.toList.isPrefixOf s.toList

/-- Occurrence check of `pat` at any position of `l`. -/
def containsAux (pat : List Char) : List Char → Bool
  | [] => pat.isPrefixOf []
  | c :: rest => pat.isPrefixOf (c :: rest) || containsAux pat rest

/-- Rust `str::contains` for a string pattern. -/
def strContainsSub (s pat : String) : Bool :=
  containsAux pat.toList s.toList

/-- Rust byte slicing `s[n..]` (all strings involved are ASCII). -/
def strDrop (s : String) (n : Nat) : String :=
  ⟨s.toList.drop n⟩

/-- Rust `str::split`: scan left to right, match the separator
(`c :: cs`, guaranteed non-empty) non-overlappingly. `acc` holds the
current piece reversed. -/
def splitSepAux (c : Char) (cs : List Char) : List Char → List Char → List (List Char)
  | [], acc => [acc.reverse]
  | d :: rest, acc =>
    if (c :: cs).isPrefixOf (d :: rest) then
      acc.reverse :: splitSepAux c cs ((d :: rest).drop (cs.length + 1)) []
    else
      splitSepAux c cs rest (d :: acc)
  termination_by l _ => l.length
  decreasing_by
    · simp only [List.length_drop, List.length_cons]
      omega
    · simp only [List.length_cons]
      omega

/-- Rust `str::split` collecting to a list of strings (empty separator never used). -/
def strSplitOn (s sep : String) : List String :=
  match sep.toList with
  | [] => [s]
  | c :: cs => (splitSepAux c cs s.toList []).map (fun l => ⟨l⟩)

/-! ## semver (external crate)

`semver::Version`: concrete carrier for version values (build metadata and
prerelease carried as strings; their internal structure is never inspected by
this repository's code).  `semver::VersionReq` is kept abstract: the embedding
is parameterized by a range type `S` together with the crate's
`VersionReq::parse` (`svParse`, `none` = parse error), `matches` (`svMatches`)
and `to_string` (`svToString`).
-/

/-- Model of `semver::Version`. -/
structure Version where
  major : Nat
  minor : Nat
  patch : Nat
  pre : String := ""
  build : String := ""
deriving DecidableEq, Repr

/-! ## src/extended_version_req.rs -/

/-- Embedding of `enum ExtendedVersionReq`.  Note the source type has exactly
these four variants: `SemVer`, `Or`, `Workspace`, `Unchecked`.  The `Path`
variant described by the specification does not exist in the source. -/
inductive ExtendedVersionReq (S : Type) where
  | SemVer (req : S)
  | Or (reqs : List (ExtendedVersionReq S))
  | Workspace (path : String)
  | Unchecked (raw : String)

/-- Embedding of `ExtendedVersionReq::parse`, fuel-indexed for the recursion
into the pieces of an `" || "` split.  Faithful branch order: semver range
first, then `workspace:` prefix, then `" || "` disjunction, else `Unchecked`.
There is no `path:`/`file:` branch and no filesystem-existence branch in the
source. -/
def parseAux (svParse : String → Option S) : Nat → String → ExtendedVersionReq S
  | 0, raw => .Unchecked raw
  | fuel + 1, raw =>
    match svParse raw with
    | some req => .SemVer req
    | none =>
      if strStartsWith raw "workspace:" then
        .Workspace (strDrop raw 10)
      else if strContainsSub raw " || " then
        .Or ((strSplitOn raw " || ").map (parseAux svParse fuel))
      else
        .Unchecked raw

/-- Entry point for `ExtendedVersionReq::parse`; each split piece loses at
least the four separator characters, so `raw.length + 1` fuel always
suffices. -/
def ExtendedVersionReq.parse (svParse : String → Option S) (raw : String) :
    ExtendedVersionReq S :=
  parseAux svParse (raw.length + 1) raw

mutual

/-- Embedding of `ExtendedVersionReq::matches`: tri-state result, `none` for
`Workspace` and `Unchecked`. -/
def ExtendedVersionReq.matches (svMatches : S → Version → Bool) :
    ExtendedVersionReq S → Version → Option Bool
  | .SemVer req, v => some (svMatches req v)
  | .Or reqs, v => some (matchesAny svMatches reqs v)
  | .Workspace _, _ => none
  | .Unchecked _, _ => none

/-- The `Or` arm's `reqs.iter().filter_map(matches).any(id)`, with the
`filter_map`/`any` fused into one pass. -/
def matchesAny (svMatches : S → Version → Bool) :
    List (ExtendedVersionReq S) → Version → Bool
  | [], _ => false
  | r :: rest, v =>
    match r.matches svMatches v with
    | some b => b || matchesAny svMatches rest v
    | none => matchesAny svMatches rest v

end

mutual

/-- Embedding of `impl PartialEq for ExtendedVersionReq`: `SemVer` compares
canonical range strings, `Unchecked` compares raw strings, `Or` checks that
every left element equals some right element, and every other pairing —
including `Workspace` against `Workspace` — is `false` (the source has no
`Workspace` arm). -/
def evrEq (svToString : S → String) :
    ExtendedVersionReq S → ExtendedVersionReq S → Bool
  | .SemVer a, .SemVer b => svToString a == svToString b
  | .Unchecked a, .Unchecked b => a == b
  | .Or a, .Or b => evrAllIn svToString a b
  | _, _ => false

/-- The `Or` arm's `a.iter().all(...)`. -/
def evrAllIn (svToString : S → String) :
    List (ExtendedVersionReq S) → List (ExtendedVersionReq S) → Bool
  | [], _ => true
  | x :: xs, b => evrAnyIn svToString x b && evrAllIn svToString xs b

/-- The `Or` arm's inner `b.iter().any(|b| a.eq(b))`. -/
def evrAnyIn (svToString : S → String) (x : ExtendedVersionReq S) :
    List (ExtendedVersionReq S) → Bool
  | [] => false
  | y :: ys => evrEq svToString x y || evrAnyIn svToString x ys

end

mutual

/-- Absence of the `Workspace` variant anywhere inside a requirement. -/
def workspaceFree : ExtendedVersionReq S → Bool
  | .Workspace _ => false
  | .Or reqs => workspaceFreeList reqs
  | .SemVer _ => true
  | .Unchecked _ => true

/-- List version of `workspaceFree`. -/
def workspaceFreeList : List (ExtendedVersionReq S) → Bool
  | [] => true
  | r :: rest => workspaceFree r && workspaceFreeList rest

end

/-- Demo instance of the external `VersionReq::parse` for witness evaluation:
recognizes the two concrete ranges used in the examples, rejects everything
else, as the semver grammar does. -/
def demoSvParse (s : String) : Option String :=
  if s = "^1.0.0" ∨ s = "1.2.3" then some s else none

theorem evrAnyIn_of_mem {S : Type} (ts : S → String) {x y : ExtendedVersionReq S}
    {b : List (ExtendedVersionReq S)} (hm : y ∈ b) (he : evrEq ts x y = true) :
    evrAnyIn ts x b = true := by
  induction b with
  | nil => cases hm
  | cons z zs ih =>
    rw [evrAnyIn]
    rcases List.mem_cons.mp hm with h | h
    · subst h; simp [he]
    · simp [ih h]

theorem evrAllIn_of_forall {S : Type} (ts : S → String)
    {l b : List (ExtendedVersionReq S)}
    (h : ∀ x ∈ l, evrAnyIn ts x b = true) : evrAllIn ts l b = true := by
  induction l with
  | nil => rw [evrAllIn]
  | cons z zs ih =>
    rw [evrAllIn]
    simp only [Bool.and_eq_true]
    exact ⟨h z (List.mem_cons_self z zs), ih fun x hx => h x (List.mem_cons_of_mem z hx)⟩

theorem workspaceFreeList_mem {S : Type} {l : List (ExtendedVersionReq S)}
    {x : ExtendedVersionReq S} (h : workspaceFreeList l = true) (hm : x ∈ l) :
    workspaceFree x = true := by
  induction l with
  | nil => cases hm
  | cons z zs ih =>
    rw [workspaceFreeList] at h
    simp only [Bool.and_eq_true] at h
    rcases List.mem_cons.mp hm with h' | h'
    · subst h'; exact h.1
    · exact ih h.2 h'

theorem evrEq_refl_of_bound {S : Type} (ts : S → String) :
    ∀ n (r : ExtendedVersionReq S), sizeOf r ≤ n → workspaceFree r = true →
      evrEq ts r r = true := by
  intro n
  induction n with
  | zero =>
    intro r hr
    cases r <;> simp_all
  | succ n ih =>
    intro r hr hw
    cases r with
    | SemVer a => rw [evrEq]; exact beq_self_eq_true (ts a)
    | Unchecked a => rw [evrEq]; exact beq_self_eq_true a
    | Workspace s => rw [workspaceFree] at hw; cases hw
    | Or reqs =>
      rw [evrEq]
      rw [workspaceFree] at hw
      refine evrAllIn_of_forall ts fun x hx => evrAnyIn_of_mem ts hx ?_
      have hsz : sizeOf x ≤ n := by
        have := List.sizeOf_lt_of_mem hx
        simp only [ExtendedVersionReq.Or.sizeOf_spec] at hr
        omega
      exact ih x hsz (workspaceFreeList_mem hw hx)

/-- C6 counterexample. The claim says a raw requirement starting with
`"path:"` or `"file:"` parses to a `Path` variant holding the suffix after the
prefix.  The source type has no `Path` variant at all: both strings parse to
`Unchecked` holding the entire raw string (the demo semver instance rejects
them exactly as `semver::VersionReq::parse` does). -/
theorem C6_parse_path_cx :
    ExtendedVersionReq.parse demoSvParse "path:abc" =
        ExtendedVersionReq.Unchecked "path:abc" ∧
      ExtendedVersionReq.parse demoSvParse "file:abc" =
        ExtendedVersionReq.Unchecked "file:abc" :=
  ⟨rfl, rfl⟩

/-- C6 amended. `ExtendedVersionReq` has no `Path` variant; a raw string that
does not parse as a semver range, does not start with `workspace:` and does
not contain `" || "` — in particular every `path:`/`file:` string and every
bare filesystem path rejected by the semver grammar — becomes
`Unchecked(raw)` verbatim. -/
theorem C6_parse_fallthrough {S : Type} (svParse : String → Option S)
    (raw : String) (h1 : svParse raw = none)
    (h2 : strStartsWith raw "workspace:" = false)
    (h3 : strContainsSub raw " || " = false) :
    ExtendedVersionReq.parse svParse raw = ExtendedVersionReq.Unchecked raw := by
  rw [ExtendedVersionReq.parse, parseAux, h1, h2, h3]
  simp

/-- C6 amended, witness at `"path:abc"`. -/
theorem C6_parse_fallthrough_witness :
    ExtendedVersionReq.parse demoSvParse "path:abc" =
      ExtendedVersionReq.Unchecked "path:abc" :=
  C6_parse_fallthrough demoSvParse "path:abc" rfl rfl rfl

/-- C7 counterexample. Equality of version requirements is not an equivalence
relation: `Workspace("*") == Workspace("*")` is `false` (the `eq` match has no
`Workspace` arm), and `Or` equality is a one-sided inclusion check, hence not
symmetric: `Or[x] == Or[x,y]` holds while `Or[x,y] == Or[x]` does not. -/
theorem C7_eq_not_equivalence_cx :
    evrEq (id : String → String) (.Workspace "*") (.Workspace "*") = false ∧
      evrEq (id : String → String) (.Or [.Unchecked "x"])
        (.Or [.Unchecked "x", .Unchecked "y"]) = true ∧
      evrEq (id : String → String) (.Or [.Unchecked "x", .Unchecked "y"])
        (.Or [.Unchecked "x"]) = false := by
  refine ⟨?_, ?_, ?_⟩ <;> simp [evrEq, evrAllIn, evrAnyIn]

/-- C7 amended. `eq` is reflexive exactly on requirements that contain no
`Workspace` variant (structurally, with `SemVer` compared via the canonical
range string); for `Workspace` itself reflexivity fails for every suffix, and
`Or` equality is a one-sided inclusion, so `eq` is not an equivalence
relation. -/
theorem C7_eq_partial_refl {S : Type} (ts : S → String)
    (r : ExtendedVersionReq S) (h : workspaceFree r = true) :
    evrEq ts r r = true ∧
      ∀ s, evrEq ts (ExtendedVersionReq.Workspace (S := S) s)
        (ExtendedVersionReq.Workspace s) = false := by
  constructor
  · exact evrEq_refl_of_bound ts (sizeOf r) r le_rfl h
  · intro s; simp [evrEq]

/-- C7 amended, witness at a workspace-free disjunction. -/
theorem C7_eq_partial_refl_witness :
    evrEq (id : String → String) (.Or [.Unchecked "a", .SemVer "^1.0.0"])
        (.Or [.Unchecked "a", .SemVer "^1.0.0"]) = true ∧
      ∀ s, evrEq (id : String → String) (.Workspace s) (.Workspace s) = false :=
  C7_eq_partial_refl id (.Or [.Unchecked "a", .SemVer "^1.0.0"]) (by
    rw [workspaceFree, workspaceFreeList, workspaceFree, workspaceFreeList,
      workspaceFree, workspaceFreeList]
    rfl)

theorem matchesAny_eq_any {S : Type} (svM : S → Version → Bool)
    (l : List (ExtendedVersionReq S)) (v : Version) :
    matchesAny svM l v =
      l.any fun r => r.matches svM v == some true := by
  induction l with
  | nil => rw [matchesAny]; rfl
  | cons r rest ih =>
    rw [matchesAny]
    cases h : r.matches svM v with
    | none => simp [h, ih]
    | some b => cases b <;> simp [h, ih]

/-- C10 confirmed. `matches` on an `Or` requirement always returns `some b`
(never `none`), with `b` true exactly when some child requirement's `matches`
returns `some true`; in particular an `Or` all of whose children return
`none` yields `some false`. -/
theorem C10_or_matches {S : Type} (svM : S → Version → Bool)
    (l : List (ExtendedVersionReq S)) (v : Version) :
    (ExtendedVersionReq.Or l).matches svM v =
      some (l.any fun r => r.matches svM v == some true) := by
  rw [ExtendedVersionReq.matches, matchesAny_eq_any]

/-! ## src/package_data.rs -/

/-- Typed model of the `serde_json::Value` fields that
`PackageJsonData::from_value` reads.  Well-formed JSON shapes are baked into
the type (a non-object `dependencies`, non-string entry, etc. would abort with
`InvalidManifest`; those malformed shapes are outside the modelled value
space). -/
structure ManifestValue where
  name : Option String
  version : Option String
  dependencies : Option (List (String × String))
  devDependencies : Option (List (String × String))
  workspaces : Option (List String)

/-- Embedding of `struct PackageJsonData`.  `workspace_globs` carries the
result of `get_workspace_globs` (the prefixed glob strings); the filesystem
glob expansion performed by `WorkspaceData::from_globs` feeds no claim and is
not modelled beyond the glob list. -/
structure PackageJsonData (S : Type) where
  name : String
  version : Option Version
  install_path : String
  parent_id : Nat
  dependencies : List (String × ExtendedVersionReq S)
  dev_dependencies : List (String × ExtendedVersionReq S)
  workspace_globs : Option (List String)

/-- Embedding of `deps_from_value`: every requirement string is parsed with
`ExtendedVersionReq::parse` (which never fails). -/
def depsFromValue (svParse : String → Option S) (deps : List (String × String)) :
    List (String × ExtendedVersionReq S) :=
  deps.map fun p => (p.1, ExtendedVersionReq.parse svParse p.2)

/-- Embedding of `get_workspace_globs`: drop `"."` entries, prefix each glob
with the canonicalized install path and `"/"`, and collapse an empty list to
`none`. -/
def getWorkspaceGlobs (workspaces : Option (List String)) (install_path : String) :
    Option (List String) :=
  match workspaces with
  | none => none
  | some ws =>
    let globs := (ws.filter fun w => w ≠ ".").map fun w => install_path ++ "/" ++ w
    if globs.isEmpty then none else some globs

/-- Embedding of `PackageJsonData::from_value`.  `vParse` is the external
`semver::Version::parse`; `canonFn` is the filesystem's `Path::canonicalize`.
Faithful ordering from the source: the `devDependencies` gate tests the
`install_path` argument (the folder as passed in) for the substring
`"node_modules"` BEFORE the path is canonicalized; the record's
`install_path` field then receives the canonicalized path. -/
def PackageJsonData.fromValue (svParse : String → Option S)
    (vParse : String → Except String Version) (json : ManifestValue)
    (node_modules_id : Nat) (install_path : String)
    (canonFn : String → Except String String) :
    Except String (PackageJsonData S) :=
  let name := json.name.getD "\x7bno name\x7d"
  match (match json.version with
         | none => Except.ok none
         | some s => (vParse s).map some) with
  | .error e => .error e
  | .ok version =>
    let dependencies := depsFromValue svParse (json.dependencies.getD [])
    let dev_dependencies :=
      if strContainsSub install_path "node_modules" then []
      else depsFromValue svParse (json.devDependencies.getD [])
    match canonFn install_path with
    | .error e => .error e
    | .ok canon =>
      .ok { name, version, install_path := canon, parent_id := node_modules_id,
            dependencies, dev_dependencies,
            workspace_globs := getWorkspaceGlobs json.workspaces canon }

/-- Demo instance of the external `semver::Version::parse`. -/
def demoVParse (s : String) : Except String Version :=
  if s = "1.0.0" then .ok ⟨1, 0, 0, "", ""⟩
  else if s = "2.0.0" then .ok ⟨2, 0, 0, "", ""⟩
  else .error "invalid version"

/-- Demo `canonicalize` with one symlink: the tool is handed
`"/home/u/proj"`, which resolves through a link to a directory that lives
inside a `node_modules` tree. -/
def demoCanonSym (s : String) : Except String String :=
  if s = "/home/u/proj" then .ok "/tmp/node_modules/proj" else .error "no such path"

/-- C5 counterexample. The claim keys the dev-dependency gate on the
canonicalized install path.  The source tests the folder string before
canonicalization: for a folder whose given path has no `node_modules`
substring but whose canonical path does (a symlink, or a relative path
resolved from inside a `node_modules` tree), the loaded record keeps its
`devDependencies` even though its canonical `install_path` contains a
`node_modules` segment. -/
theorem C5_dev_deps_canon_cx :
    PackageJsonData.fromValue demoSvParse demoVParse
        ⟨some "p", some "1.0.0", some [], some [("a", "^1.0.0")], none⟩
        7 "/home/u/proj" demoCanonSym =
      .ok { name := "p", version := some ⟨1, 0, 0, "", ""⟩,
            install_path := "/tmp/node_modules/proj", parent_id := 7,
            dependencies := [],
            dev_dependencies := [("a", .SemVer "^1.0.0")],
            workspace_globs := none } ∧
      strContainsSub "/tmp/node_modules/proj" "node_modules" = true :=
  ⟨rfl, rfl⟩

/-- C5 amended. The gate fires on the folder path as passed in (before
canonicalization): whenever that string contains the substring
`"node_modules"`, the loaded record's `dev_dependencies` is empty regardless
of the manifest's `devDependencies`. -/
theorem C5_dev_deps_empty {S : Type} (svParse : String → Option S)
    (vParse : String → Except String Version) (json : ManifestValue)
    (node_modules_id : Nat) (install_path : String)
    (canonFn : String → Except String String) (d : PackageJsonData S)
    (h1 : strContainsSub install_path "node_modules" = true)
    (h2 : PackageJsonData.fromValue svParse vParse json node_modules_id
            install_path canonFn = .ok d) :
    d.dev_dependencies = [] := by
  rw [PackageJsonData.fromValue] at h2
  simp only [h1, if_true] at h2
  split at h2
  · cases h2
  · split at h2
    · cases h2
    · cases h2
      rfl

/-- C5 amended, witness: a manifest physically inside `node_modules` with a
non-empty `devDependencies` loads with empty `dev_dependencies`. -/
theorem C5_dev_deps_empty_witness :
    (PackageJsonData.mk "a" (some ⟨2, 0, 0, "", ""⟩) "/r/node_modules/a" 3 [] []
        none : PackageJsonData String).dev_dependencies = [] :=
  C5_dev_deps_empty demoSvParse demoVParse
    ⟨some "a", some "2.0.0", none, some [("b", "1.2.3")], none⟩
    3 "/r/node_modules/a" (fun s => .ok s) _ rfl rfl

/-! ## crate::package and crate::node_modules

The defining source file of `Package`, `PackageEntry`, `Dependency`,
`PackageKey`, `From<&PackageJsonData> for PackageKey` and of `NodeModules` is
not part of the source tree (only its callers `dependency_resolver.rs`,
`diff.rs`, `resolver.rs`, `ptree_impl/*` are).  These definitions are
modelled from the specification (§3 Data Model, §4.3 Installation Scope).
-/

/-- Modelled from the spec: Package Key — `(name, optional version,
scope_id)`; equality (and hashing) uses all three fields. -/
structure PackageKey where
  name : String
  version : Option Version
  parent_id : Nat
deriving DecidableEq, Repr

/-- Modelled from the spec: Resolved Entry — `Resolved(key) | Missing |
Truncated`. -/
inductive PackageEntry where
  | Resolved (key : PackageKey)
  | Missing
  | Truncated
deriving DecidableEq, Repr

/-- Modelled from the spec: Resolved Dependency — `(name, requirement,
entry)`. -/
structure Dependency (S : Type) where
  name : String
  version_req : ExtendedVersionReq S
  package : PackageEntry

/-- Modelled from the spec: Resolved Package Node.  The transient `visited`
flag is render-state and is threaded explicitly by the rendering functions;
the `dep_resolver` back-reference is replaced by passing the owning
resolver's package map. -/
structure Package (S : Type) where
  name : String
  version : Option Version
  dependencies : List (String × Dependency S)
  dev_dependencies : List (String × Dependency S)
  data : PackageJsonData S

/-- Modelled from the spec: `From<&PackageJsonData> for PackageKey` (the
`package_data.into()` at the top of `DependencyResolver::resolve_package`). -/
def packageKeyOfData (d : PackageJsonData S) : PackageKey :=
  ⟨d.name, d.version, d.parent_id⟩

/-- Modelled from the spec: `From<&Package> for PackageKey` (used by
`Differ::diff_packages`). -/
def packageKeyOfPackage (p : Package S) : PackageKey :=
  ⟨p.name, p.version, p.data.parent_id⟩

/-- Association-list lookup with string keys (HashMap `get`). -/
def alookup (k : String) : List (String × α) → Option α
  | [] => none
  | (k', v) :: rest => if k' = k then some v else alookup k rest

/-- Association-list lookup keyed by `PackageKey` (HashMap `get`). -/
def klookup (k : PackageKey) : List (PackageKey × α) → Option α
  | [] => none
  | (k', v) :: rest => if k' = k then some v else klookup k rest

/-- Modelled from the spec: an Installation Scope chain.  The head of
`scopes` is the scope's own `(scope_id, name → manifest)` map, the tail the
ancestor chain, mirroring the parent links of `NodeModules`. -/
structure NodeModules (S : Type) where
  scopes : List (Nat × List (String × PackageJsonData S))

/-- Modelled from the spec: `NodeModules::get_package` — try the local map,
then the parents in order. -/
def NodeModules.getPackage (nm : NodeModules S) (name : String) :
    Option (PackageJsonData S) :=
  nm.scopes.findSome? fun sc => alookup name sc.2

/-- Filesystem model for the resolver: `nodeModules p` is the content of
`p/node_modules` — `none` when the directory does not exist, `some (.error e)`
when enumerating/parsing it fails fatally, `some (.ok pkgs)` its package map
(parent ids not yet stamped). -/
structure FileSys (S : Type) where
  nodeModules : String → Option (Except String (List (String × PackageJsonData S)))

/-- Modelled from the spec: `NodeModules::create_child` — build the scope of
`install_path/node_modules` (empty when absent), stamp every gathered
manifest with the fresh scope id (`NEXT_PARENT_ID`), and chain the current
scope as parent. -/
def NodeModules.createChild (nm : NodeModules S) (fs : FileSys S)
    (install_path : String) (next_id : Nat) :
    Except String (NodeModules S × Nat) :=
  match fs.nodeModules install_path with
  | none => .ok (⟨(next_id, []) :: nm.scopes⟩, next_id + 1)
  | some (.error e) => .error e
  | some (.ok pkgs) =>
    .ok (⟨(next_id, pkgs.map fun p => (p.1, { p.2 with parent_id := next_id }))
            :: nm.scopes⟩, next_id + 1)

/-! ## src/dependency_resolver.rs -/

/-- Embedding of the `DependencyResolver` mutable state (`packages`,
`visiting`, `current_depth`) plus the `NEXT_PARENT_ID` counter.  `visiting`
is stored most-recent-first (Rust pushes/pops at the vector's end; only the
stack discipline and membership are observable). -/
structure ResolverState (S : Type) where
  packages : List (PackageKey × Package S)
  visiting : List PackageKey
  current_depth : Nat
  next_id : Nat

/-- Outcome of a resolver call: success and error both carry the state (an
error propagated by `?` leaves the state as it was at the failure point);
`out` is exhaustion of the embedding's fuel. -/
inductive RRes (S : Type) (α : Type) where
  | ok (a : α) (st : ResolverState S)
  | err (e : String) (st : ResolverState S)
  | out

/-- Embedding of `DependencyResolver::resolve_deps`, parameterized by the
(fuel-applied) `resolve_package` it calls back into.  Each dependency whose
name resolves in the scope is recursed into — there is no special case for
`Workspace(_)` requirements in this generation of the source; unresolvable
names become `Missing`. -/
def resolveDepsWith (rp : PackageJsonData S → NodeModules S → ResolverState S → RRes S PackageEntry)
    (nm : NodeModules S) :
    List (String × ExtendedVersionReq S) → ResolverState S →
      RRes S (List (String × Dependency S))
  | [], st => .ok [] st
  | (name, req) :: rest, st =>
    match nm.getPackage name with
    | some dta =>
      match rp dta nm st with
      | .out => .out
      | .err e st1 => .err e st1
      | .ok entry st1 =>
        match resolveDepsWith rp nm rest st1 with
        | .out => .out
        | .err e st2 => .err e st2
        | .ok deps st2 => .ok ((name, ⟨name, req, entry⟩) :: deps) st2
    | none =>
      match resolveDepsWith rp nm rest st with
      | .out => .out
      | .err e st2 => .err e st2
      | .ok deps st2 => .ok ((name, ⟨name, req, PackageEntry.Missing⟩) :: deps) st2

/-- Embedding of `DependencyResolver::resolve_package`, fuel-indexed.
Faithful structure: memo/visiting check first (returns `Resolved(key)`),
then the depth guard, then push `key` and bump the depth, build a child
scope when `install_path/node_modules` exists (a failure there propagates
with `?` — without popping), resolve both dependency maps, pop/decrement,
construct and insert the node, and return `Resolved(key)`. -/
def resolvePackage (fs : FileSys S) (maxDepth : Nat) :
    Nat → PackageJsonData S → NodeModules S → ResolverState S → RRes S PackageEntry
  | 0 => fun _ _ _ => .out
  | fuel + 1 => fun dta nm st =>
    let key := packageKeyOfData dta
    if (klookup key st.packages).isSome || decide (key ∈ st.visiting) then
      .ok (.Resolved key) st
    else if st.current_depth > maxDepth then
      .ok .Truncated st
    else
      let st1 : ResolverState S :=
        { st with visiting := key :: st.visiting,
                  current_depth := st.current_depth + 1 }
      match (if (fs.nodeModules dta.install_path).isSome then
               nm.createChild fs dta.install_path st1.next_id
             else .ok (nm, st1.next_id)) with
      | .error e => .err e st1
      | .ok (nm2, nid) =>
        let st2 : ResolverState S := { st1 with next_id := nid }
        match resolveDepsWith (resolvePackage fs maxDepth fuel) nm2 dta.dependencies st2 with
        | .out => .out
        | .err e st' => .err e st'
        | .ok rdeps st3 =>
          match resolveDepsWith (resolvePackage fs maxDepth fuel) nm2 dta.dev_dependencies st3 with
          | .out => .out
          | .err e st' => .err e st'
          | .ok rdev st4 =>
            let st5 : ResolverState S :=
              { st4 with current_depth := st4.current_depth - 1,
                         visiting := st4.visiting.tail }
            let pkg : Package S := ⟨dta.name, dta.version, rdeps, rdev, dta⟩
            .ok (.Resolved key) { st5 with packages := (key, pkg) :: st5.packages }

/-- Embedding of `DependencyResolver::unwrap_entry` (state threaded for
uniformity; the Rust method only reads it). -/
def unwrapEntry : PackageEntry → ResolverState S → RRes S (Package S)
  | .Resolved key, st =>
    (match klookup key st.packages with
     | some pkg => .ok pkg st
     | none => .err "Root package is missing" st)
  | .Truncated, st => .err "Root package is truncated" st
  | .Missing, st => .err "Root package is missing" st

/-- Embedding of `DependencyResolver::resolve_root_package`. -/
def resolveRootPackage (fs : FileSys S) (maxDepth fuel : Nat)
    (dta : PackageJsonData S) (rootNM : NodeModules S) (st : ResolverState S) :
    RRes S (Package S) :=
  match resolvePackage fs maxDepth fuel dta rootNM st with
  | .out => .out
  | .err e st' => .err e st'
  | .ok entry st' => unwrapEntry entry st'

theorem klookup_cons_isSome {S : Type} {k k' : PackageKey} {v : Package S}
    {l : List (PackageKey × Package S)}
    (h : (klookup k l).isSome = true) :
    (klookup k ((k', v) :: l)).isSome = true := by
  rw [klookup]
  split <;> simp_all

theorem klookup_self {S : Type} (k : PackageKey) (v : Package S)
    (l : List (PackageKey × Package S)) :
    klookup k ((k, v) :: l) = some v := by
  rw [klookup]
  simp

theorem resolveDepsWith_ok_state {S : Type}
    (rp : PackageJsonData S → NodeModules S → ResolverState S → RRes S PackageEntry)
    (Hrp : ∀ dta nm st e st', rp dta nm st = .ok e st' →
      st'.visiting = st.visiting ∧ st'.current_depth = st.current_depth)
    (nm : NodeModules S) :
    ∀ (deps : List (String × ExtendedVersionReq S)) (st : ResolverState S) r st',
      resolveDepsWith rp nm deps st = .ok r st' →
      st'.visiting = st.visiting ∧ st'.current_depth = st.current_depth := by
  intro deps
  induction deps with
  | nil =>
    intro st r st' h
    rw [resolveDepsWith] at h
    cases h
    exact ⟨rfl, rfl⟩
  | cons d rest ih =>
    intro st r st' h
    obtain ⟨name, req⟩ := d
    cases hg : nm.getPackage name with
    | none =>
      cases hrec : resolveDepsWith rp nm rest st with
      | out => simp only [resolveDepsWith, hg, hrec] at h; cases h
      | err e st2 => simp only [resolveDepsWith, hg, hrec] at h; cases h
      | ok deps st2 =>
        simp only [resolveDepsWith, hg, hrec, RRes.ok.injEq] at h
        obtain ⟨-, h2⟩ := h
        subst h2
        exact ih st _ _ hrec
    | some dta =>
      cases hrp : rp dta nm st with
      | out => simp only [resolveDepsWith, hg, hrp] at h; cases h
      | err e st1 => simp only [resolveDepsWith, hg, hrp] at h; cases h
      | ok entry st1 =>
        cases hrec : resolveDepsWith rp nm rest st1 with
        | out => simp only [resolveDepsWith, hg, hrp, hrec] at h; cases h
        | err e st2 => simp only [resolveDepsWith, hg, hrp, hrec] at h; cases h
        | ok deps st2 =>
          simp only [resolveDepsWith, hg, hrp, hrec, RRes.ok.injEq] at h
          obtain ⟨-, h2⟩ := h
          subst h2
          have h1 := Hrp _ _ _ _ _ hrp
          have h2 := ih st1 _ _ hrec
          exact ⟨h2.1.trans h1.1, h2.2.trans h1.2⟩

theorem resolvePackage_ok_state {S : Type} (fs : FileSys S) (maxDepth : Nat) :
    ∀ (fuel : Nat) (dta : PackageJsonData S) nm st e st',
      resolvePackage fs maxDepth fuel dta nm st = .ok e st' →
      st'.visiting = st.visiting ∧ st'.current_depth = st.current_depth := by
  intro fuel
  induction fuel with
  | zero =>
    intro dta nm st e st' h
    rw [resolvePackage] at h
    cases h
  | succ fuel ih =>
    intro dta nm st e st' h
    rw [resolvePackage] at h
    simp only at h
    split at h
    · cases h; exact ⟨rfl, rfl⟩
    · split at h
      · cases h; exact ⟨rfl, rfl⟩
      · split at h
        · cases h
        · split at h <;> try cases h
          rename_i rdeps st3 hdeps
          split at h <;> cases h
          rename_i rdev st4 hdev
          have h3 := resolveDepsWith_ok_state _ ih _ _ _ _ _ hdeps
          have h4 := resolveDepsWith_ok_state _ ih _ _ _ _ _ hdev
          refine ⟨?_, ?_⟩
          · simp only [h4.1, h3.1, List.tail_cons]
          · simp only [h4.2, h3.2]
            omega

/-- C9 amended. When a top-level `resolve_root_package` returns
successfully, the `visiting` stack is empty again and `current_depth` is `0`
(every push/increment is matched by a pop/decrement on the success path).
When it propagates an error, the keys pushed on the path to the failure
remain on `visiting` — see the counterexample. -/
theorem C9_root_restores_state {S : Type} (fs : FileSys S) (maxDepth fuel : Nat)
    (dta : PackageJsonData S) (nm : NodeModules S) (st : ResolverState S)
    (p : Package S) (st' : ResolverState S)
    (h0 : st.visiting = []) (h1 : st.current_depth = 0)
    (h : resolveRootPackage fs maxDepth fuel dta nm st = .ok p st') :
    st'.visiting = [] ∧ st'.current_depth = 0 := by
  rw [resolveRootPackage] at h
  cases hr : resolvePackage fs maxDepth fuel dta nm st with
  | out => rw [hr] at h; cases h
  | err e st1 => rw [hr] at h; cases h
  | ok entry st1 =>
    rw [hr] at h
    have hst := resolvePackage_ok_state fs maxDepth fuel dta nm st entry st1 hr
    cases entry with
    | Resolved key =>
      simp only [unwrapEntry] at h
      split at h <;> cases h
      exact ⟨hst.1.trans h0, hst.2.trans h1⟩
    | Missing => simp only [unwrapEntry] at h; cases h
    | Truncated => simp only [unwrapEntry] at h; cases h

/-- Root manifest of the successful demo scenario (no dependencies, no
`node_modules` anywhere). -/
def rDataOk : PackageJsonData String :=
  { name := "root", version := some ⟨1, 0, 0, "", ""⟩, install_path := "/r",
    parent_id := 0, dependencies := [], dev_dependencies := [],
    workspace_globs := none }

/-- Filesystem with no `node_modules` directories at all. -/
def fsEmpty : FileSys String := ⟨fun _ => none⟩

/-- Key and node the successful demo scenario produces. -/
def rKeyOk : PackageKey := ⟨"root", some ⟨1, 0, 0, "", ""⟩, 0⟩

/-- Resolved node of the successful demo scenario. -/
def pkgOk : Package String := ⟨"root", some ⟨1, 0, 0, "", ""⟩, [], [], rDataOk⟩

/-- C9 amended, witness: a concrete successful top-level resolution ends with
empty `visiting` and depth `0`. -/
theorem C9_root_restores_state_witness :
    (ResolverState.mk [(rKeyOk, pkgOk)] [] 0 0 : ResolverState String).visiting = [] ∧
      (ResolverState.mk [(rKeyOk, pkgOk)] [] 0 0 : ResolverState String).current_depth = 0 :=
  C9_root_restores_state fsEmpty 10 2 rDataOk ⟨[]⟩ ⟨[], [], 0, 0⟩ pkgOk
    ⟨[(rKeyOk, pkgOk)], [], 0, 0⟩ rfl rfl rfl

/-- Installed dependency of the failing demo scenario: its own
`node_modules` directory exists but fails to enumerate (invalid manifest). -/
def aDataErr : PackageJsonData String :=
  { name := "a", version := some ⟨2, 0, 0, "", ""⟩,
    install_path := "/r/node_modules/a", parent_id := 0, dependencies := [],
    dev_dependencies := [], workspace_globs := none }

/-- Root manifest of the failing demo scenario. -/
def rDataErr : PackageJsonData String :=
  { name := "root", version := some ⟨1, 0, 0, "", ""⟩, install_path := "/r",
    parent_id := 0, dependencies := [("a", .SemVer "^2.0.0")],
    dev_dependencies := [], workspace_globs := none }

/-- Filesystem of the failing demo scenario. -/
def fsErr : FileSys String :=
  ⟨fun p =>
    if p = "/r" then some (.ok [("a", aDataErr)])
    else if p = "/r/node_modules/a" then some (.error "invalid json") else none⟩

/-- C9 counterexample. The claim covers error returns too ("whether it
returns a node or an error").  On the error path the `?` operator propagates
before the pop/decrement runs: a fatal scope-reading failure two levels down
leaves both in-progress keys on `visiting` and `current_depth = 2`. -/
theorem C9_error_leaves_visiting_cx :
    resolveRootPackage fsErr 10 5 rDataErr ⟨[]⟩ ⟨[], [], 0, 0⟩ =
        .err "invalid json"
          ⟨[], [⟨"a", some ⟨2, 0, 0, "", ""⟩, 0⟩,
                ⟨"root", some ⟨1, 0, 0, "", ""⟩, 0⟩], 2, 1⟩ ∧
      ([⟨"a", some ⟨2, 0, 0, "", ""⟩, 0⟩,
        ⟨"root", some ⟨1, 0, 0, "", ""⟩, 0⟩] : List PackageKey) ≠ [] ∧
      (2 : Nat) ≠ 0 :=
  ⟨rfl, by decide, by decide⟩

theorem resolvePackage_fresh_ok {S : Type} (fs : FileSys S) (maxDepth fuel : Nat)
    (dta : PackageJsonData S) (nm : NodeModules S) (st : ResolverState S)
    (e : PackageEntry) (st' : ResolverState S)
    (h1 : klookup (packageKeyOfData dta) st.packages = none)
    (h2 : packageKeyOfData dta ∉ st.visiting)
    (h3 : ¬ st.current_depth > maxDepth)
    (h : resolvePackage fs maxDepth (fuel + 1) dta nm st = .ok e st') :
    e = .Resolved (packageKeyOfData dta) ∧
      (klookup (packageKeyOfData dta) st'.packages).isSome = true := by
  have hcond : ((klookup (packageKeyOfData dta) st.packages).isSome ||
      decide (packageKeyOfData dta ∈ st.visiting)) = false := by
    rw [h1]
    simp [h2]
  rw [resolvePackage] at h
  simp only at h
  rw [if_neg (show ¬(((klookup (packageKeyOfData dta) st.packages).isSome ||
      decide (packageKeyOfData dta ∈ st.visiting)) = true) by
        rw [hcond]; exact Bool.false_ne_true),
    if_neg h3] at h
  split at h
  · cases h
  · split at h <;> try cases h
    rename_i rdeps st3 hdeps
    split at h <;> cases h
    rename_i rdev st4 hdev
    refine ⟨rfl, ?_⟩
    rw [klookup_self]
    rfl

theorem resolveDepsWith_mono {S : Type}
    (rp : PackageJsonData S → NodeModules S → ResolverState S → RRes S PackageEntry)
    (Hrp : ∀ dta nm st e st', rp dta nm st = .ok e st' →
      ∀ k, (klookup k st.packages).isSome = true →
        (klookup k st'.packages).isSome = true)
    (nm : NodeModules S) :
    ∀ (deps : List (String × ExtendedVersionReq S)) (st : ResolverState S) r st',
      resolveDepsWith rp nm deps st = .ok r st' →
      ∀ k, (klookup k st.packages).isSome = true →
        (klookup k st'.packages).isSome = true := by
  intro deps
  induction deps with
  | nil =>
    intro st r st' h k hk
    rw [resolveDepsWith] at h
    cases h
    exact hk
  | cons d rest ih =>
    intro st r st' h k hk
    obtain ⟨name, req⟩ := d
    cases hg : nm.getPackage name with
    | none =>
      cases hrec : resolveDepsWith rp nm rest st with
      | out => simp only [resolveDepsWith, hg, hrec] at h; cases h
      | err e st2 => simp only [resolveDepsWith, hg, hrec] at h; cases h
      | ok deps st2 =>
        simp only [resolveDepsWith, hg, hrec, RRes.ok.injEq] at h
        obtain ⟨-, h2⟩ := h
        subst h2
        exact ih st _ _ hrec k hk
    | some dta =>
      cases hrp : rp dta nm st with
      | out => simp only [resolveDepsWith, hg, hrp] at h; cases h
      | err e st1 => simp only [resolveDepsWith, hg, hrp] at h; cases h
      | ok entry st1 =>
        cases hrec : resolveDepsWith rp nm rest st1 with
        | out => simp only [resolveDepsWith, hg, hrp, hrec] at h; cases h
        | err e st2 => simp only [resolveDepsWith, hg, hrp, hrec] at h; cases h
        | ok deps st2 =>
          simp only [resolveDepsWith, hg, hrp, hrec, RRes.ok.injEq] at h
          obtain ⟨-, h2⟩ := h
          subst h2
          exact ih st1 _ _ hrec k (Hrp _ _ _ _ _ hrp k hk)

theorem resolvePackage_mono {S : Type} (fs : FileSys S) (maxDepth : Nat) :
    ∀ (fuel : Nat) (dta : PackageJsonData S) nm st e st',
      resolvePackage fs maxDepth fuel dta nm st = .ok e st' →
      ∀ k, (klookup k st.packages).isSome = true →
        (klookup k st'.packages).isSome = true := by
  intro fuel
  induction fuel with
  | zero =>
    intro dta nm st e st' h
    rw [resolvePackage] at h
    cases h
  | succ fuel ih =>
    intro dta nm st e st' h k hk
    rw [resolvePackage] at h
    simp only at h
    split at h
    · cases h; exact hk
    · split at h
      · cases h; exact hk
      · split at h
        · cases h
        · split at h <;> try cases h
          rename_i rdeps st3 hdeps
          split at h <;> cases h
          rename_i rdev st4 hdev
          have h3 := resolveDepsWith_mono _ ih _ _ _ _ _ hdeps k hk
          have h4 := resolveDepsWith_mono _ ih _ _ _ _ _ hdev k h3
          exact klookup_cons_isSome h4

/-- C1 confirmed (with the `PackageKey` definition modelled from the spec:
its defining module `crate::package` is not in the source tree).  The key a
freshly resolved node is stored under — and which the returned
`Resolved(key)` entry carries — is exactly the triple
`(name, version, parent_id)` of its manifest; key equality holds iff all
three components agree, so manifests agreeing in name and version but
installed under different scopes receive distinct keys and therefore distinct
nodes in the resolver's package map. -/
theorem C1_package_key_triple {S : Type} (fs : FileSys S) (maxDepth fuel : Nat)
    (dta : PackageJsonData S) (nm : NodeModules S) (st : ResolverState S)
    (e : PackageEntry) (st' : ResolverState S)
    (h1 : klookup (packageKeyOfData dta) st.packages = none)
    (h2 : packageKeyOfData dta ∉ st.visiting)
    (h3 : ¬ st.current_depth > maxDepth)
    (h : resolvePackage fs maxDepth (fuel + 1) dta nm st = .ok e st') :
    e = .Resolved (packageKeyOfData dta) ∧
      (klookup (packageKeyOfData dta) st'.packages).isSome = true ∧
      packageKeyOfData dta = ⟨dta.name, dta.version, dta.parent_id⟩ ∧
      (∀ k k' : PackageKey,
        k = k' ↔ k.name = k'.name ∧ k.version = k'.version ∧
          k.parent_id = k'.parent_id) ∧
      (∀ d2 : PackageJsonData S, dta.name = d2.name → dta.version = d2.version →
        dta.parent_id ≠ d2.parent_id →
          packageKeyOfData dta ≠ packageKeyOfData d2) := by
  have hm := resolvePackage_fresh_ok fs maxDepth fuel dta nm st e st' h1 h2 h3 h
  refine ⟨hm.1, hm.2, rfl, ?_, ?_⟩
  · intro k k'
    constructor
    · rintro rfl
      exact ⟨rfl, rfl, rfl⟩
    · rintro ⟨ha, hb, hc⟩
      cases k
      cases k'
      dsimp at ha hb hc
      subst ha
      subst hb
      subst hc
      rfl
  · intro d2 hn hv hp hcontra
    apply hp
    have := congrArg PackageKey.parent_id hcontra
    simpa [packageKeyOfData] using this

/-- C1 witness: concrete fresh resolution (the successful demo scenario). -/
theorem C1_package_key_triple_witness :
    (PackageEntry.Resolved rKeyOk) = .Resolved (packageKeyOfData rDataOk) ∧
      (klookup (packageKeyOfData rDataOk)
        (ResolverState.mk [(rKeyOk, pkgOk)] [] 0 0 : ResolverState String).packages).isSome = true ∧
      packageKeyOfData rDataOk =
        ⟨rDataOk.name, rDataOk.version, rDataOk.parent_id⟩ ∧
      (∀ k k' : PackageKey,
        k = k' ↔ k.name = k'.name ∧ k.version = k'.version ∧
          k.parent_id = k'.parent_id) ∧
      (∀ d2 : PackageJsonData String, rDataOk.name = d2.name →
        rDataOk.version = d2.version → rDataOk.parent_id ≠ d2.parent_id →
          packageKeyOfData rDataOk ≠ packageKeyOfData d2) :=
  C1_package_key_triple fsEmpty 10 1 rDataOk ⟨[]⟩ ⟨[], [], 0, 0⟩
    (.Resolved rKeyOk) ⟨[(rKeyOk, pkgOk)], [], 0, 0⟩ rfl (by simp) (by decide) rfl

/-- Workspace-member manifest of the C4 demo scenario as it sits on disk
(before scope stamping). -/
def mDataW : PackageJsonData String :=
  { name := "m", version := some ⟨1, 0, 0, "", ""⟩,
    install_path := "/r/node_modules/m", parent_id := 0, dependencies := [],
    dev_dependencies := [], workspace_globs := none }

/-- Workspace-member manifest stamped with the child scope id `8`. -/
def mDataW8 : PackageJsonData String := { mDataW with parent_id := 8 }

/-- Root manifest of the C4 demo scenario: one dependency on `m` under a
`workspace:*` requirement. -/
def rDataW4 : PackageJsonData String :=
  { name := "root", version := some ⟨1, 0, 0, "", ""⟩, install_path := "/r",
    parent_id := 3, dependencies := [("m", .Workspace "*")],
    dev_dependencies := [], workspace_globs := some ["/r/packages/*"] }

/-- Filesystem of the C4 demo scenario. -/
def fsW4 : FileSys String :=
  ⟨fun p => if p = "/r" then some (.ok [("m", mDataW)]) else none⟩

/-- Key of the resolved workspace member: it carries the member's version and
the child scope id — not the claimed `(name, no version, 0)` sentinel. -/
def mKeyW : PackageKey := ⟨"m", some ⟨1, 0, 0, "", ""⟩, 8⟩

/-- Node materialized for the workspace member. -/
def pkgMW : Package String := ⟨"m", some ⟨1, 0, 0, "", ""⟩, [], [], mDataW8⟩

/-- Node materialized for the root; its `m` edge holds
`Resolved(mKeyW)`. -/
def pkgRW : Package String :=
  ⟨"root", some ⟨1, 0, 0, "", ""⟩,
    [("m", ⟨"m", .Workspace "*", .Resolved mKeyW⟩)], [], rDataW4⟩

/-- Final resolver state of the C4 demo scenario. -/
def stW4 : ResolverState String :=
  ⟨[(⟨"root", some ⟨1, 0, 0, "", ""⟩, 3⟩, pkgRW), (mKeyW, pkgMW)], [], 0, 9⟩

/-- C4 counterexample. Resolving a dependency edge whose requirement is
`Workspace(_)` and whose name resolves in the current scope: the current
resolver (`DependencyResolver::resolve_deps`) has no `Workspace` special
case.  It recurses into the member — the member node is materialized in the
package map — and the emitted entry is `Resolved` of the member's full key,
version included; no version-less dedup sentinel is produced. -/
theorem C4_workspace_sentinel_cx :
    resolvePackage fsW4 10 5 rDataW4 ⟨[]⟩ ⟨[], [], 0, 8⟩ =
        .ok (.Resolved ⟨"root", some ⟨1, 0, 0, "", ""⟩, 3⟩) stW4 ∧
      alookup "m" pkgRW.dependencies =
        some ⟨"m", .Workspace "*", .Resolved mKeyW⟩ ∧
      mKeyW.version = some ⟨1, 0, 0, "", ""⟩ ∧
      klookup mKeyW stW4.packages = some pkgMW :=
  ⟨rfl, rfl, rfl, rfl⟩

/-- C4 amended. A dependency edge with a `Workspace(_)` requirement whose
name resolves to a manifest in the current scope is treated like every other
edge: the resolver recurses into the member via `resolve_package` (workspace
cycles are stopped by the `visiting` stack, not by a sentinel), the emitted
entry is `Resolved` of the member's full key, and the member node is
materialized in the resolver's package map. -/
theorem C4_workspace_edge_recurses {S : Type} (fs : FileSys S)
    (maxDepth fuel : Nat) (name sfx : String)
    (rest : List (String × ExtendedVersionReq S)) (nm : NodeModules S)
    (st : ResolverState S) (dta : PackageJsonData S)
    (r : List (String × Dependency S)) (st' : ResolverState S)
    (hget : nm.getPackage name = some dta)
    (h1 : klookup (packageKeyOfData dta) st.packages = none)
    (h2 : packageKeyOfData dta ∉ st.visiting)
    (h3 : ¬ st.current_depth > maxDepth)
    (hres : resolveDepsWith (resolvePackage fs maxDepth (fuel + 1)) nm
      ((name, ExtendedVersionReq.Workspace sfx) :: rest) st = .ok r st') :
    alookup name r =
        some ⟨name, .Workspace sfx, .Resolved (packageKeyOfData dta)⟩ ∧
      (klookup (packageKeyOfData dta) st'.packages).isSome = true := by
  cases hrp : resolvePackage fs maxDepth (fuel + 1) dta nm st with
  | out => simp only [resolveDepsWith, hget, hrp] at hres; cases hres
  | err e st1 => simp only [resolveDepsWith, hget, hrp] at hres; cases hres
  | ok entry st1 =>
    have hm := resolvePackage_fresh_ok fs maxDepth fuel dta nm st entry st1
      h1 h2 h3 hrp
    cases hrec : resolveDepsWith (resolvePackage fs maxDepth (fuel + 1)) nm rest st1 with
    | out => simp only [resolveDepsWith, hget, hrp, hrec] at hres; cases hres
    | err e st2 => simp only [resolveDepsWith, hget, hrp, hrec] at hres; cases hres
    | ok deps st2 =>
      simp only [resolveDepsWith, hget, hrp, hrec, RRes.ok.injEq] at hres
      obtain ⟨hr, hst⟩ := hres
      subst hr
      subst hst
      refine ⟨?_, ?_⟩
      · rw [alookup]
        simp [hm.1]
      · exact resolveDepsWith_mono _ (resolvePackage_mono fs maxDepth (fuel + 1))
          nm rest st1 deps st2 hrec _ hm.2

/-- C4 amended, witness at the demo scenario's inner `resolve_deps` call. -/
theorem C4_workspace_edge_recurses_witness :
    alookup "m"
        [("m", (⟨"m", .Workspace "*", .Resolved mKeyW⟩ : Dependency String))] =
        some ⟨"m", .Workspace "*", .Resolved (packageKeyOfData mDataW8)⟩ ∧
      (klookup (packageKeyOfData mDataW8)
        (ResolverState.mk [(mKeyW, pkgMW)] [⟨"root", some ⟨1, 0, 0, "", ""⟩, 3⟩] 1 9
          : ResolverState String).packages).isSome = true :=
  C4_workspace_edge_recurses fsW4 10 4 "m" "*" [] ⟨[(8, [("m", mDataW8)])]⟩
    ⟨[], [⟨"root", some ⟨1, 0, 0, "", ""⟩, 3⟩], 1, 9⟩ mDataW8
    [("m", ⟨"m", .Workspace "*", .Resolved mKeyW⟩)]
    ⟨[(mKeyW, pkgMW)], [⟨"root", some ⟨1, 0, 0, "", ""⟩, 3⟩], 1, 9⟩
    rfl rfl (by decide) (by decide) rfl

/-! ## src/diff.rs -/

/-- Embedding of `struct ChangedPackageKey`: the paired identity of a diffed
node. -/
structure ChangedPackageKey where
  left : PackageKey
  right : PackageKey
deriving DecidableEq, Repr

/-- Embedding of `enum ChangedPackageEntry`. -/
inductive ChangedPackageEntry where
  | Resolved (key : ChangedPackageKey)
  | Missing
  | Truncated
  | MismatchedResolution
deriving DecidableEq, Repr

/-- Embedding of `enum DiffedPackageAndVersionReq`. -/
inductive DiffedPackageAndVersionReq (S : Type) where
  | Changed (package : ChangedPackageEntry)
      (version_req_left version_req_right : ExtendedVersionReq S)
  | Added (package : PackageEntry) (version_req : ExtendedVersionReq S)
  | Removed (package : PackageEntry) (version_req : ExtendedVersionReq S)

/-- Embedding of `struct DiffedDependency`. -/
structure DiffedDependency (S : Type) where
  name : String
  package : DiffedPackageAndVersionReq S

/-- Embedding of `struct DiffedPackage` (the transient `visited`/`visiting`
render flags and the `differ` back-reference are carried outside the node, as
for `Package`). -/
structure DiffedPackage (S : Type) where
  name : String
  version_left : Option Version
  version_right : Option Version
  dependencies : List (String × DiffedDependency S)
  dev_dependencies : List (String × DiffedDependency S)

/-- Embedding of the `Differ`'s `diffed_packages` memo map. -/
structure DifferState (S : Type) where
  diffed : List (ChangedPackageKey × Option (DiffedPackage S))

/-- Association-list lookup keyed by `ChangedPackageKey` (HashMap `get`). -/
def cklookup (k : ChangedPackageKey) :
    List (ChangedPackageKey × α) → Option α
  | [] => none
  | (k', v) :: rest => if k' = k then some v else cklookup k rest

/-- HashMap `remove`: the removed value (if any) and the remaining map. -/
def removeKey (k : String) : List (String × α) → Option α × List (String × α)
  | [] => (none, [])
  | (k', v) :: rest =>
    if k' = k then (some v, rest)
    else
      let r := removeKey k rest
      (r.1, (k', v) :: r.2)

/-- Embedding of `Differ::diff_entries`, parameterized by the (fuel-applied)
`diff_packages` it calls back into.  `lp`/`rp` are the left/right resolvers'
package maps.  The outer `none` is fuel exhaustion; the inner `Option` is the
source's `Option<ChangedPackageEntry>` (`?` on a failed resolver lookup, or a
recursive diff that returned `None`). -/
def diffEntriesWith
    (dp : Package S → Package S → DifferState S →
      Option (Option (DiffedPackage S) × DifferState S))
    (lp rp : List (PackageKey × Package S)) :
    PackageEntry → PackageEntry → DifferState S →
      Option (Option ChangedPackageEntry × DifferState S)
  | .Resolved kl, .Resolved kr, st =>
    (match klookup kl lp with
     | none => some (none, st)
     | some lpkg =>
       match klookup kr rp with
       | none => some (none, st)
       | some rpkg =>
         match dp lpkg rpkg st with
         | none => none
         | some (none, st1) => some (none, st1)
         | some (some _, st1) =>
           some (some (.Resolved ⟨packageKeyOfPackage lpkg,
             packageKeyOfPackage rpkg⟩), st1))
  | .Missing, .Missing, st => some (some .Missing, st)
  | .Truncated, .Truncated, st => some (some .Truncated, st)
  | _, _, st => some (some .MismatchedResolution, st)

/-- Embedding of `Differ::diff_dependency`. -/
def diffDependencyWith
    (dp : Package S → Package S → DifferState S →
      Option (Option (DiffedPackage S) × DifferState S))
    (lp rp : List (PackageKey × Package S)) (ld rd : Dependency S)
    (st : DifferState S) :
    Option (Option (DiffedDependency S) × DifferState S) :=
  let name := if ld.name ≠ rd.name then "(" ++ ld.name ++ " -> " ++ rd.name ++ ")"
              else ld.name
  match diffEntriesWith dp lp rp ld.package rd.package st with
  | none => none
  | some (none, st1) => some (none, st1)
  | some (some entry, st1) =>
    some (some ⟨name, .Changed entry ld.version_req rd.version_req⟩, st1)

/-- Embedding of `Differ::diff_dependencies`: walk the left map, pairing with
(and removing from) the right map — a paired diff that yields nothing is
omitted, an unpaired left entry becomes `Removed` — then the remaining right
entries become `Added`. -/
def diffDependenciesWith
    (dp : Package S → Package S → DifferState S →
      Option (Option (DiffedPackage S) × DifferState S))
    (lp rp : List (PackageKey × Package S)) :
    List (String × Dependency S) → List (String × Dependency S) →
      DifferState S →
      Option (List (String × DiffedDependency S) × DifferState S)
  | [], right, st =>
    some (right.map fun p => (p.1, ⟨p.1, .Added p.2.package p.2.version_req⟩), st)
  | (n, ld) :: restL, right, st =>
    match removeKey n right with
    | (some rd, right') =>
      (match diffDependencyWith dp lp rp ld rd st with
       | none => none
       | some (none, st1) => diffDependenciesWith dp lp rp restL right' st1
       | some (some dd, st1) =>
         match diffDependenciesWith dp lp rp restL right' st1 with
         | none => none
         | some (l, st2) => some ((n, dd) :: l, st2))
    | (none, _) =>
      match diffDependenciesWith dp lp rp restL right st with
      | none => none
      | some (l, st2) =>
        some ((n, ⟨n, .Removed ld.package ld.version_req⟩) :: l, st2)

/-- Embedding of `Differ::diff_packages`, fuel-indexed.  Faithful structure:
the memo is consulted at entry; both dependency maps are diffed; when both
diffs are empty and name and version agree the function RETURNS `None`
WITHOUT writing the memo (the source's early `return None` skips the
`insert`); otherwise the constructed node is cached under the paired key and
returned. -/
def diffPackages (lp rp : List (PackageKey × Package S)) :
    Nat → Package S → Package S → DifferState S →
      Option (Option (DiffedPackage S) × DifferState S)
  | 0 => fun _ _ _ => none
  | fuel + 1 => fun left right st =>
    let key : ChangedPackageKey :=
      ⟨packageKeyOfPackage left, packageKeyOfPackage right⟩
    match cklookup key st.diffed with
    | some cached => some (cached, st)
    | none =>
      match diffDependenciesWith (diffPackages lp rp fuel) lp rp
          left.dependencies right.dependencies st with
      | none => none
      | some (dependencies, st1) =>
        match diffDependenciesWith (diffPackages lp rp fuel) lp rp
            left.dev_dependencies right.dev_dependencies st1 with
        | none => none
        | some (dev_dependencies, st2) =>
          if dependencies.isEmpty && dev_dependencies.isEmpty &&
              decide (left.version = right.version) &&
              decide (left.name = right.name) then
            some (none, st2)
          else
            let dnode : DiffedPackage S :=
              ⟨left.name, left.version, right.version, dependencies,
                dev_dependencies⟩
            some (some dnode, { st2 with diffed := (key, some dnode) :: st2.diffed })

/-- Embedding of `Differ::diff` (fresh memo). -/
def Differ.diff (lp rp : List (PackageKey × Package S)) (fuel : Nat)
    (left right : Package S) :
    Option (Option (DiffedPackage S) × DifferState S) :=
  diffPackages lp rp fuel left right ⟨[]⟩

/-- Manifest behind node `a` of the cyclic demo graph. -/
def dataA : PackageJsonData String :=
  ⟨"a", some ⟨1, 0, 0, "", ""⟩, "/w/a", 0, [], [], none⟩

/-- Manifest behind node `b` of the cyclic demo graph. -/
def dataB : PackageJsonData String :=
  ⟨"b", some ⟨1, 0, 0, "", ""⟩, "/w/b", 0, [], [], none⟩

/-- Key of node `a`. -/
def kA : PackageKey := ⟨"a", some ⟨1, 0, 0, "", ""⟩, 0⟩

/-- Key of node `b`. -/
def kB : PackageKey := ⟨"b", some ⟨1, 0, 0, "", ""⟩, 0⟩

/-- Node `a`: depends on `b` (a cycle `a → b → a`, exactly the shape the
resolver produces for mutually depending installed packages — each edge is
`Resolved(key)` and the nodes live in the resolver map). -/
def pA : Package String :=
  ⟨"a", some ⟨1, 0, 0, "", ""⟩,
    [("b", ⟨"b", .Unchecked "*", .Resolved kB⟩)], [], dataA⟩

/-- Node `b`: depends back on `a`. -/
def pB : Package String :=
  ⟨"b", some ⟨1, 0, 0, "", ""⟩,
    [("a", ⟨"a", .Unchecked "*", .Resolved kA⟩)], [], dataB⟩

/-- The resolver package map containing the cycle. -/
def lpAB : List (PackageKey × Package String) := [(kA, pA), (kB, pB)]

theorem diffCycle_loop : ∀ fuel,
    diffPackages lpAB lpAB fuel pA pA ⟨[]⟩ = none ∧
      diffPackages lpAB lpAB fuel pB pB ⟨[]⟩ = none := by
  intro fuel
  induction fuel with
  | zero => exact ⟨rfl, rfl⟩
  | succ n ih =>
    obtain ⟨ihA, ihB⟩ := ih
    simp only [pA, pB, lpAB, kA, kB, dataA, dataB] at ihA ihB
    constructor
    · simp [diffPackages, diffDependenciesWith, diffDependencyWith,
        diffEntriesWith, removeKey, cklookup, klookup, packageKeyOfPackage,
        pA, pB, lpAB, kA, kB, dataA, dataB, ihB]
    · simp [diffPackages, diffDependenciesWith, diffDependencyWith,
        diffEntriesWith, removeKey, cklookup, klookup, packageKeyOfPackage,
        pA, pB, lpAB, kA, kB, dataA, dataB, ihA]

/-- C2 code_bug. `diff_packages` does NOT terminate on cyclic resolved
graphs: the memo is consulted at entry but only written at exit (and the
unchanged case returns `None` without writing it at all), so on the cycle
`a → b → a` diffed against itself the second descent finds the memo exactly
as empty as the first and recurses again.  Formally: for EVERY fuel bound
the fuel-indexed embedding fails to produce a result — the recursion never
bottoms out. -/
theorem C2_diff_cycle_diverges :
    ∀ fuel, diffPackages lpAB lpAB fuel pA pA ⟨[]⟩ = none :=
  fun fuel => (diffCycle_loop fuel).1

/-- Manifest behind the leaf node of the C3 demo. -/
def dataLeaf : PackageJsonData String :=
  ⟨"leaf", some ⟨1, 0, 0, "", ""⟩, "/w/leaf", 0, [], [], none⟩

/-- Key of the leaf node. -/
def kLeaf : PackageKey := ⟨"leaf", some ⟨1, 0, 0, "", ""⟩, 0⟩

/-- A leaf package (no dependencies at all). -/
def pLeaf : Package String := ⟨"leaf", some ⟨1, 0, 0, "", ""⟩, [], [], dataLeaf⟩

/-- Resolver map of the C3 demo. -/
def lpLeaf : List (PackageKey × Package String) := [(kLeaf, pLeaf)]

/-- C3 counterexample. Diffing an unchanged leaf against itself returns
`None`, but — contrary to the claim — nothing is cached under the paired
key: the early `return None` in `diff_packages` skips the `insert`, so the
memo is exactly as it was (here: still empty). -/
theorem C3_none_not_cached_cx :
    diffPackages lpLeaf lpLeaf 3 pLeaf pLeaf ⟨[]⟩ = some (none, ⟨[]⟩) ∧
      cklookup ⟨kLeaf, kLeaf⟩
        ([] : List (ChangedPackageKey × Option (DiffedPackage String))) = none :=
  ⟨rfl, rfl⟩

/-- C3 amended. When both dependency diffs are empty and the names and
versions agree, `diff_packages` returns `None` — but WITHOUT caching
anything under the paired key (the early return skips the insert); in
particular a dependency-free package diffed against itself yields `None` and
leaves the memo untouched.  (For packages whose identical subtrees contain
`Missing`/`Truncated` edges the dependency diff is non-empty, and on cycles
the call does not return at all — see C2.) -/
theorem C3_unchanged_returns_none_uncached {S : Type}
    (lp rp : List (PackageKey × Package S)) (fuel : Nat) (L R : Package S)
    (st st1 st2 : DifferState S)
    (hck : cklookup ⟨packageKeyOfPackage L, packageKeyOfPackage R⟩ st.diffed = none)
    (hd1 : diffDependenciesWith (diffPackages lp rp fuel) lp rp
      L.dependencies R.dependencies st = some ([], st1))
    (hd2 : diffDependenciesWith (diffPackages lp rp fuel) lp rp
      L.dev_dependencies R.dev_dependencies st1 = some ([], st2))
    (hv : L.version = R.version) (hn : L.name = R.name) :
    diffPackages lp rp (fuel + 1) L R st = some (none, st2) ∧
      ∀ (q : Package S) (stq : DifferState S), q.dependencies = [] →
        q.dev_dependencies = [] →
        cklookup ⟨packageKeyOfPackage q, packageKeyOfPackage q⟩ stq.diffed = none →
        diffPackages lp rp (fuel + 1) q q stq = some (none, stq) := by
  constructor
  · rw [diffPackages]
    simp [hck, hd1, hd2, hv, hn]
  · intro q stq hq1 hq2 hckq
    rw [diffPackages]
    simp only [hckq, hq1, hq2]
    simp [diffDependenciesWith]

/-- C3 amended, witness at the leaf demo. -/
theorem C3_unchanged_returns_none_uncached_witness :
    diffPackages lpLeaf lpLeaf (2 + 1) pLeaf pLeaf ⟨[]⟩ = some (none, ⟨[]⟩) ∧
      ∀ (q : Package String) (stq : DifferState String), q.dependencies = [] →
        q.dev_dependencies = [] →
        cklookup ⟨packageKeyOfPackage q, packageKeyOfPackage q⟩ stq.diffed = none →
        diffPackages lpLeaf lpLeaf (2 + 1) q q stq = some (none, stq) :=
  C3_unchanged_returns_none_uncached lpLeaf lpLeaf 2 pLeaf pLeaf
    ⟨[]⟩ ⟨[]⟩ ⟨[]⟩ rfl rfl rfl rfl rfl

/-! ## src/ptree_impl -/

/-- Embedding of `enum ChildOrDevDependencySeparator`. -/
inductive ChildOrDevDependencySeparator (C : Type) where
  | Child (c : C)
  | DevDependencySeparator

/-- Embedding of `struct DepWithPackage` (ptree_impl/package.rs). -/
structure DepWithPackage (S : Type) where
  dependency : Dependency S
  package : Option (Package S)

/-- Embedding of `Package::populate_children`: attach the resolver's node to
each `Resolved` dependency. -/
def populateChildren (pkgs : List (PackageKey × Package S))
    (deps : List (Dependency S)) : List (DepWithPackage S) :=
  deps.map fun d =>
    ⟨d, match d.package with
        | .Resolved key => klookup key pkgs
        | _ => none⟩

/-- Embedding of `impl TreeItem for Package :: children`
(ptree_impl/package.rs).  On a visited node the child list is empty;
otherwise the dependency children come from `self.dependencies.values()` —
the raw map iteration order, with NO sorting — followed, when
`dev_dependencies` is non-empty, by the separator and the dev children (again
unsorted).  The transient `visited` flag is passed explicitly. -/
def Package.childrenRender (pkgs : List (PackageKey × Package S))
    (p : Package S) (visited : Bool) :
    List (ChildOrDevDependencySeparator (DepWithPackage S)) :=
  if visited then []
  else
    (populateChildren pkgs (p.dependencies.map Prod.snd)).map .Child ++
      (if p.dev_dependencies.isEmpty then []
       else .DevDependencySeparator ::
         (populateChildren pkgs (p.dev_dependencies.map Prod.snd)).map .Child)

/-- Stable insertion of one keyed entry: an element inserted later is placed
after the entries whose key is strictly smaller and before those with an
equal or larger key.  Keys compare in lexicographic character order (Rust's
`Ord` on `String`), expressed on the character lists. -/
def insertSorted (x : String × V) : List (String × V) → List (String × V)
  | [] => [x]
  | y :: ys => if y.1.toList < x.1.toList then y :: insertSorted x ys else x :: y :: ys

/-- Stable sort by key; models `Vec::sort_by_cached_key` (a stable sort by
the extracted key) used by `sorted_values` in ptree_impl/mod.rs. -/
def sortByKey : List (String × V) → List (String × V)
  | [] => []
  | x :: xs => insertSorted x (sortByKey xs)

/-- Embedding of `sorted_values` (ptree_impl/mod.rs): the map's values in
ascending key order. -/
def sortedValues (m : List (String × V)) : List V :=
  (sortByKey m).map Prod.snd

/-- Embedding of `struct DiffedDepWithPackage` (ptree_impl/diff.rs; the
`OnceCell` children cache is a memoization of a pure computation and is not
carried). -/
structure DiffedDepWithPackage (S : Type) where
  dependency : DiffedDependency S
  package : Option (DiffedPackage S)

/-- Embedding of `DiffedPackage::populate_children`: attach the differ's
cached node (`Differ::get_package`, i.e. memo lookup flattened) to each
`Changed`/`Resolved` child. -/
def diffPopulateChildren (dstate : List (ChangedPackageKey × Option (DiffedPackage S)))
    (deps : List (DiffedDependency S)) : List (DiffedDepWithPackage S) :=
  deps.map fun d =>
    ⟨d, match d.package with
        | .Changed (.Resolved key) _ _ => (cklookup key dstate).bind fun o => o
        | _ => none⟩

/-- Embedding of `DiffedPackage::get_children` (ptree_impl/diff.rs): the
dependency children in `sorted_values` order, then — when `dev_dependencies`
is non-empty — the separator and the dev children, again in `sorted_values`
order.  (`TreeItem::children` additionally filters this list by
`should_display`, preserving its relative order.) -/
def DiffedPackage.getChildren
    (dstate : List (ChangedPackageKey × Option (DiffedPackage S)))
    (d : DiffedPackage S) :
    List (ChildOrDevDependencySeparator (DiffedDepWithPackage S)) :=
  (diffPopulateChildren dstate (sortedValues d.dependencies)).map .Child ++
    (if d.dev_dependencies.isEmpty then []
     else .DevDependencySeparator ::
       (diffPopulateChildren dstate (sortedValues d.dev_dependencies)).map .Child)

/-- Name shown for a rendered child (diagnostic projection). -/
def childNameOf : ChildOrDevDependencySeparator (DepWithPackage S) → String
  | .Child d => d.dependency.name
  | .DevDependencySeparator => "[DEV DEPENDENCIES]"

theorem insertSorted_perm (x : String × V) (l : List (String × V)) :
    (insertSorted x l).Perm (x :: l) := by
  induction l with
  | nil => rfl
  | cons y ys ih =>
    rw [insertSorted]
    split
    · exact (ih.cons y).trans (List.Perm.swap x y ys)
    · exact List.Perm.refl _

theorem sortByKey_perm (l : List (String × V)) : (sortByKey l).Perm l := by
  induction l with
  | nil => rfl
  | cons x xs ih =>
    rw [sortByKey]
    exact (insertSorted_perm x (sortByKey xs)).trans (ih.cons x)

theorem insertSorted_pairwise {x : String × V} {l : List (String × V)}
    (h : l.Pairwise fun a b => a.1.toList ≤ b.1.toList) :
    (insertSorted x l).Pairwise fun a b => a.1.toList ≤ b.1.toList := by
  induction l with
  | nil => simp [insertSorted]
  | cons y ys ih =>
    rw [insertSorted]
    rw [List.pairwise_cons] at h
    split
    · rename_i hlt
      rw [List.pairwise_cons]
      refine ⟨?_, ih h.2⟩
      intro z hz
      have hz' := (insertSorted_perm x ys).mem_iff.mp hz
      rcases List.mem_cons.mp hz' with h' | h'
      · subst h'; exact le_of_lt hlt
      · exact h.1 z h'
    · rename_i hge
      rw [List.pairwise_cons]
      refine ⟨?_, List.pairwise_cons.mpr h⟩
      intro z hz
      rcases List.mem_cons.mp hz with h' | h'
      · subst h'; exact le_of_not_lt hge
      · exact le_trans (le_of_not_lt hge) (h.1 z h')

theorem sortByKey_pairwise (l : List (String × V)) :
    (sortByKey l).Pairwise fun a b => a.1.toList ≤ b.1.toList := by
  induction l with
  | nil => simp [sortByKey]
  | cons x xs ih => exact insertSorted_pairwise ih

theorem sorted_keyNodup_unique {l₁ l₂ : List (String × V)}
    (hp : l₁.Perm l₂) (h₁ : l₁.Pairwise fun a b => a.1.toList ≤ b.1.toList)
    (h₂ : l₂.Pairwise fun a b => a.1.toList ≤ b.1.toList)
    (hn : (l₁.map Prod.fst).Nodup) : l₁ = l₂ := by
  haveI : IsAntisymm (String × V) (fun a b => a.1.toList < b.1.toList) :=
    ⟨fun a b hab hba => absurd (lt_trans hab hba) (lt_irrefl _)⟩
  have hne₁ : l₁.Pairwise fun a b => a.1 ≠ b.1 := List.pairwise_map.mp hn
  have hn₂ : (l₂.map Prod.fst).Nodup := (hp.map Prod.fst).nodup_iff.mp hn
  have hne₂ : l₂.Pairwise fun a b => a.1 ≠ b.1 := List.pairwise_map.mp hn₂
  have hs₁ : l₁.Pairwise fun a b => a.1.toList < b.1.toList :=
    (h₁.and hne₁).imp fun h =>
      lt_of_le_of_ne h.1 fun hc => h.2 (by
        apply congrArg (fun l => String.mk l) at hc
        simpa using hc)
  have hs₂ : l₂.Pairwise fun a b => a.1.toList < b.1.toList :=
    (h₂.and hne₂).imp fun h =>
      lt_of_le_of_ne h.1 fun hc => h.2 (by
        apply congrArg (fun l => String.mk l) at hc
        simpa using hc)
  exact List.eq_of_perm_of_sorted hp hs₁ hs₂

theorem sortedValues_perm_eq {m m' : List (String × V)} (hp : m.Perm m')
    (hn : (m.map Prod.fst).Nodup) : sortedValues m = sortedValues m' := by
  have h : sortByKey m = sortByKey m' := by
    refine sorted_keyNodup_unique ?_ (sortByKey_pairwise m) (sortByKey_pairwise m') ?_
    · exact (sortByKey_perm m).trans (hp.trans (sortByKey_perm m').symm)
    · exact ((sortByKey_perm m).map Prod.fst).nodup_iff.mpr hn
  rw [sortedValues, sortedValues, h]

theorem perm_isEmpty {α : Type} {l₁ l₂ : List α} (h : l₁.Perm l₂) :
    l₁.isEmpty = l₂.isEmpty := by
  cases l₁ with
  | nil =>
    rw [h.symm.eq_nil]
  | cons x xs =>
    cases l₂ with
    | nil => exact absurd h.eq_nil (by simp)
    | cons y ys => rfl

/-- Manifest used for the C8 demo node (contents irrelevant to rendering). -/
def data8 : PackageJsonData String :=
  ⟨"p", some ⟨1, 0, 0, "", ""⟩, "/w/p", 0, [], [], none⟩

/-- A resolved node whose dependency map iterates in the order `b`, `a` —
one of the iteration orders a `HashMap` can produce. -/
def p8 : Package String :=
  ⟨"p", some ⟨1, 0, 0, "", ""⟩,
    [("b", ⟨"b", .Unchecked "*", .Missing⟩),
     ("a", ⟨"a", .Unchecked "*", .Missing⟩)],
    [], data8⟩

/-- C8 counterexample. For resolved `Package` nodes the claim fails:
`impl TreeItem for Package :: children` (ptree_impl/package.rs) maps over
`self.dependencies.values()` without sorting, so the children surface in the
map's iteration order (`b` before `a` here) — not in key-sorted order and
not independent of the hash map's iteration order.  `sorted_values` (which
the diff renderer uses, but this one does not) would have produced
`a`, `b`. -/
theorem C8_package_children_unsorted_cx :
    (Package.childrenRender ([] : List (PackageKey × Package String)) p8
        false).map childNameOf = ["b", "a"] ∧
      "a".toList < "b".toList ∧
      (sortedValues p8.dependencies).map Dependency.name = ["a", "b"] :=
  ⟨rfl, by decide, rfl⟩

/-- C8 amended. The key-sorted, iteration-order-independent contract holds
for the DIFF renderer: `DiffedPackage::get_children` passes both maps
through `sorted_values`, so (given distinct names, which map keys are) any
two iteration orders of the same maps render identically, and the produced
key order is ascending.  Resolved `Package` nodes, by contrast, render in
raw map order (see the counterexample). -/
theorem C8_diff_children_sorted {S : Type}
    (dstate : List (ChangedPackageKey × Option (DiffedPackage S)))
    (d : DiffedPackage S)
    (deps' dev' : List (String × DiffedDependency S))
    (hp1 : d.dependencies.Perm deps')
    (hn1 : (d.dependencies.map Prod.fst).Nodup)
    (hp2 : d.dev_dependencies.Perm dev')
    (hn2 : (d.dev_dependencies.map Prod.fst).Nodup) :
    DiffedPackage.getChildren dstate d =
        DiffedPackage.getChildren dstate
          ⟨d.name, d.version_left, d.version_right, deps', dev'⟩ ∧
      (sortByKey d.dependencies).Pairwise
        fun a b => a.1.toList ≤ b.1.toList := by
  constructor
  · rw [DiffedPackage.getChildren, DiffedPackage.getChildren]
    dsimp only
    rw [sortedValues_perm_eq hp1 hn1, sortedValues_perm_eq hp2 hn2,
      perm_isEmpty hp2]
  · exact sortByKey_pairwise _

/-- Dependency child `a` of the C8 witness diff node. -/
def ddA : DiffedDependency String := ⟨"a", .Added .Missing (.Unchecked "*")⟩

/-- Dependency child `b` of the C8 witness diff node. -/
def ddB : DiffedDependency String := ⟨"b", .Added .Missing (.Unchecked "*")⟩

/-- C8 amended, witness: the same diff node rendered from two iteration
orders of its dependency map. -/
theorem C8_diff_children_sorted_witness :
    DiffedPackage.getChildren ([] : List (ChangedPackageKey × Option (DiffedPackage String)))
        ⟨"d", none, none, [("b", ddB), ("a", ddA)], []⟩ =
        DiffedPackage.getChildren []
          ⟨"d", none, none, [("a", ddA), ("b", ddB)], []⟩ ∧
      (sortByKey [("b", ddB), ("a", ddA)]).Pairwise
        fun a b => a.1.toList ≤ b.1.toList :=
  C8_diff_children_sorted [] ⟨"d", none, none, [("b", ddB), ("a", ddA)], []⟩
    [("a", ddA), ("b", ddB)] [] (List.Perm.swap _ _ _) (by decide)
    (List.Perm.refl _) (by decide)

end Nmvc
